import Mathlib

/-!
The relay data plane of easyProxy, `utils/util.go`.

A shallow embedding of `copyBuffer`, `Relay`, `GetCompressType` and
`ReplayWaitGroup` from `utils/util.go`, followed by the properties of the
relay engine that are established about them.

The functions of `util.go` act on connections, on stream transforms and on a
process-wide buffer pool.  They are embedded as programs over a small set of
primitive operations (`Prog`); an environment (`Env`) answers every read, write
and close as an arbitrary function of everything that happened before, and the
interpreter `run` records every operation in a trace.  A loop is given a budget
of iterations (`fuel`); a program whose loop exceeds it has not returned.
-/

namespace EasyProxy

/-! ## Constants of `util.go` -/

def COMPRESS_NONE_ENCODE : Int := 0
def COMPRESS_NONE_DECODE : Int := 1
def COMPRESS_SNAPY_ENCODE : Int := 2
def COMPRESS_SNAPY_DECODE : Int := 3

def IO_EOF : String := "PROXYEOF"

/-- The conversion `[]byte(s)` of a Go string: its UTF-8 bytes. -/
def bytesOf (s : String) : List UInt8 := s.data.flatMap String.utf8EncodeChar

/-! ## Data model -/

/-- Go `error` values that `copyBuffer` tells apart: the sentinel `io.EOF`, the
sentinel `io.ErrShortWrite`, and any other error, identified by a number.  The
nil error is `none : Option Error`. -/
inductive Error where
  | EOF
  | ErrShortWrite
  | other (code : Nat)
  deriving DecidableEq, Repr

/-- A `net.Conn` handle.  Two handles are the same connection exactly when they
are equal. -/
abbrev Conn := Nat

/-- Modelled from the spec: the type `Rate` of the rate limiter is declared
outside `util.go`; a `*Rate` is "externally supplied, possibly absent (meaning
unlimited)", so it is `none` for nil or the identity of a shared limiter. -/
abbrev RatePtr := Option Nat

/-- What `copyBuffer` is handed as `io.Reader` or `io.Writer`: a raw connection,
or a transform built over a connection by `NewSnappyConn` or `NewCryptConn`.
`serial` tells apart the instances built by separate constructor calls. -/
inductive Stream where
  | conn (c : Conn)
  | snappyConn (c : Conn) (crypt : Bool) (rate : RatePtr) (serial : Nat)
  | cryptConn (c : Conn) (crypt : Bool) (rate : RatePtr) (serial : Nat)
  deriving DecidableEq, Repr

/-- One operation performed by the code, with its outcome. -/
inductive Event where
  | poolGet
  | poolPut
  | read (s : Stream) (data : List UInt8) (er : Option Error)
  | write (s : Stream) (p : List UInt8) (nw : Int) (ew : Option Error)
  | close (c : Conn) (e : Option Error)
  | construct (s : Stream)
  deriving DecidableEq, Repr

/-- The observable state: the operations performed so far, oldest first, and
the number of buffers of `bufPoolCopy` that are checked out. -/
structure World where
  trace : List Event
  outstanding : Nat
  deriving DecidableEq, Repr

/-- The behaviour of everything outside `util.go`.  Each answer may depend on
the whole history, so connections may share state, fail at any moment, or be
wired to each other.
* `Read t s` is the answer of `s.Read(buf)` after history `t`: the bytes placed
  in `buf[0:nr]` (so `nr` is their number, between 0 and the size of the pooled
  buffer, which is fixed outside `util.go`) and the error.
* `Write t s p` is the answer `(nw, ew)` of `s.Write(p)`.
* `Close t c` is the error returned by `c.Close()`. -/
structure Env where
  Read : List Event → Stream → List UInt8 × Option Error
  Write : List Event → Stream → List UInt8 → Int × Option Error
  Close : List Event → Conn → Option Error

/-- Programs over the primitive operations.  `spin` is a loop that has used up
its iteration budget: a program that has not returned. -/
inductive Prog (α : Type) where
  | ret (a : α)
  | spin
  | poolGet (k : Prog α)
  | poolPut (k : Prog α)
  | read (s : Stream) (k : List UInt8 → Option Error → Prog α)
  | write (s : Stream) (p : List UInt8) (k : Int → Option Error → Prog α)
  | close (c : Conn) (k : Option Error → Prog α)
  | newSnappy (c : Conn) (crypt : Bool) (rate : RatePtr) (k : Stream → Prog α)
  | newCrypt (c : Conn) (crypt : Bool) (rate : RatePtr) (k : Stream → Prog α)

namespace Prog

/-- Sequencing: run `p`, then `f` on its result. -/
def bind {α β : Type} : Prog α → (α → Prog β) → Prog β
  | ret a, f => f a
  | spin, _ => spin
  | poolGet k, f => poolGet (bind k f)
  | poolPut k, f => poolPut (bind k f)
  | read s k, f => read s (fun d e => bind (k d e) f)
  | write s p k, f => write s p (fun n e => bind (k n e) f)
  | close c k, f => close c (fun e => bind (k e) f)
  | newSnappy c cr r k, f => newSnappy c cr r (fun s => bind (k s) f)
  | newCrypt c cr r k, f => newCrypt c cr r (fun s => bind (k s) f)

end Prog

instance : Monad Prog where
  pure := Prog.ret
  bind := Prog.bind

/-- Append an event to the trace. -/
def World.log (w : World) (e : Event) : World :=
  { w with trace := w.trace ++ [e] }

/-- The interpreter: performs the operations of a program in order against the
environment, recording each one.  `none` means the program did not return. -/
def run (env : Env) {α : Type} : Prog α → World → Option (α × World)
  | .ret a, w => some (a, w)
  | .spin, _ => none
  | .poolGet k, w =>
      run env k { trace := w.trace ++ [Event.poolGet], outstanding := w.outstanding + 1 }
  | .poolPut k, w =>
      run env k { trace := w.trace ++ [Event.poolPut], outstanding := w.outstanding - 1 }
  | .read s k, w =>
      let r := env.Read w.trace s
      run env (k r.1 r.2) (w.log (Event.read s r.1 r.2))
  | .write s p k, w =>
      let r := env.Write w.trace s p
      run env (k r.1 r.2) (w.log (Event.write s p r.1 r.2))
  | .close c k, w =>
      let e := env.Close w.trace c
      run env (k e) (w.log (Event.close c e))
  | .newSnappy c cr r k, w =>
      let s := Stream.snappyConn c cr r w.trace.length
      run env (k s) (w.log (Event.construct s))
  | .newCrypt c cr r k, w =>
      let s := Stream.cryptConn c cr r w.trace.length
      run env (k s) (w.log (Event.construct s))

/-! ## Primitive operations, as programs -/

/-- Modelled from the spec: the pool `bufPoolCopy` is declared outside `util.go`;
it holds "reusable fixed-size buffers", one of which is "checked out" by
`bufPoolCopy.Get()`.  Only the number of buffers checked out is kept. -/
def bufPoolCopyGet : Prog Unit := .poolGet (.ret ())

/-- Modelled from the spec: the call `bufPoolCopy.Put(buf)` returns the buffer to
the pool. -/
def bufPoolCopyPut : Prog Unit := .poolPut (.ret ())

/-- The call `s.Read(buf)`, answered by the environment. -/
def Read (s : Stream) : Prog (List UInt8 × Option Error) :=
  .read s (fun d e => .ret (d, e))

/-- The call `s.Write(p)`, answered by the environment. -/
def Write (s : Stream) (p : List UInt8) : Prog (Int × Option Error) :=
  .write s p (fun n e => .ret (n, e))

/-- The call `c.Close()`, answered by the environment. -/
def Close (c : Conn) : Prog (Option Error) := .close c .ret

/-- Modelled from the spec: `NewSnappyConn(c, crypt, rate)` is declared outside
`util.go`.  A constructor "takes the underlying Connection, encryption flag,
and rate limiter"; it yields a new transform over `c` and performs no read,
write or close.  What reads and writes through the transform deliver is left
to the environment. -/
def NewSnappyConn (c : Conn) (crypt : Bool) (rate : RatePtr) : Prog Stream :=
  .newSnappy c crypt rate .ret

/-- Modelled from the spec: `NewCryptConn(c, crypt, rate)` is declared outside
`util.go`; as for `NewSnappyConn`, it yields a new transform over `c` and
performs no read, write or close. -/
def NewCryptConn (c : Conn) (crypt : Bool) (rate : RatePtr) : Prog Stream :=
  .newCrypt c crypt rate .ret

/-! ## `copyBuffer` -/

/-- Addition of `int64` values wraps around. -/
def wrapInt64 (x : Int) : Int := (x + 2 ^ 63) % 2 ^ 64 - 2 ^ 63

/-- The end of one iteration of the loop of `copyBuffer`:
`if er != nil { if er != io.EOF { err = er }; break }`, and otherwise the next
iteration `next`. -/
def checkReadError (er : Option Error) (written : Int)
    (next : Prog (Int × Option Error)) : Prog (Int × Option Error) :=
  match er with
  | some e => if e ≠ Error.EOF then pure (written, some e) else pure (written, none)
  | none => next

/-- The loop of `copyBuffer`, with at most `fuel` iterations, entered with the
running total `written`. -/
def copyLoop (dst src : Stream) : Nat → Int → Prog (Int × Option Error)
  | 0, _ => Prog.spin
  | fuel + 1, written => do
      bufPoolCopyGet
      let (data, er) ← Read src
      let nr : Int := data.length
      if nr > 0 then do
        let (nw, ew) ← Write dst data
        bufPoolCopyPut
        let written := if nw > 0 then wrapInt64 (written + nw) else written
        if ew ≠ none then
          pure (written, ew)
        else if nr ≠ nw then
          pure (written, some Error.ErrShortWrite)
        else
          checkReadError er written (copyLoop dst src fuel written)
      else do
        bufPoolCopyPut
        checkReadError er written (copyLoop dst src fuel written)

/-- The function `copyBuffer(dst, src)`: returns `(written, err)`. -/
def copyBuffer (fuel : Nat) (dst src : Stream) : Prog (Int × Option Error) :=
  copyLoop dst src fuel 0

/-! ## `Relay` -/

/-- The function `Relay(in, out, compressType, crypt, mux, rate)`: returns
`(n, err)`.  The `switch` is on constants, tried in the order of the source.
The named results start as `(0, nil)`; a `compressType` matching no case
leaves them so.  The arguments of `copyBuffer` are `(dst, src)`, in this
order. -/
def Relay (fuel : Nat) (in_ out : Conn) (compressType : Int) (crypt mux : Bool)
    (rate : RatePtr) : Prog (Int × Option Error) :=
  if compressType = COMPRESS_SNAPY_ENCODE then do
    let t ← NewSnappyConn in_ crypt rate
    let (n, err) ← copyBuffer fuel t (Stream.conn out)
    let _ ← Close out
    let t2 ← NewSnappyConn in_ crypt rate
    let _ ← Write t2 (bytesOf IO_EOF)
    pure (n, err)
  else if compressType = COMPRESS_SNAPY_DECODE then do
    let t ← NewSnappyConn out crypt rate
    let (n, err) ← copyBuffer fuel (Stream.conn in_) t
    let _ ← Close in_
    if !mux then do
      let _ ← Close out
      pure (n, err)
    else
      pure (n, err)
  else if compressType = COMPRESS_NONE_ENCODE then do
    let t ← NewCryptConn in_ crypt rate
    let (n, err) ← copyBuffer fuel t (Stream.conn out)
    let _ ← Close out
    let t2 ← NewCryptConn in_ crypt rate
    let _ ← Write t2 (bytesOf IO_EOF)
    pure (n, err)
  else if compressType = COMPRESS_NONE_DECODE then do
    let t ← NewCryptConn out crypt rate
    let (n, err) ← copyBuffer fuel (Stream.conn in_) t
    let _ ← Close in_
    if !mux then do
      let _ ← Close out
      pure (n, err)
    else
      pure (n, err)
  else
    pure (0, none)

/-! ## `GetCompressType` -/

/-- The result of a function that may end the process: `log.Fatalln` prints its
message and exits, so nothing is returned to the caller. -/
inductive Outcome (α : Type) where
  | returns (a : α)
  | fatal (msg : String)
  deriving DecidableEq, Repr

/-- The function `GetCompressType(compress)`.  The `return` after the `switch`
is never reached, because `log.Fatalln` does not return. -/
def GetCompressType (compress : String) : Outcome (Int × Int) :=
  if compress = "" then
    Outcome.returns (COMPRESS_NONE_DECODE, COMPRESS_NONE_ENCODE)
  else if compress = "snappy" then
    Outcome.returns (COMPRESS_SNAPY_DECODE, COMPRESS_SNAPY_ENCODE)
  else
    Outcome.fatal "数据压缩格式错误"

/-! ## Reading the trace -/

/-- Whether an event is a read on stream `s`. -/
def Event.isReadOn (s : Stream) : Event → Bool
  | Event.read s1 _ _ => decide (s1 = s)
  | _ => false

/-- The bytes handed to `s.Write`, when the event is a write on stream `s`. -/
def Event.payloadOn (s : Stream) : Event → Option (List UInt8)
  | Event.write s1 p _ _ => if s1 = s then some p else none
  | _ => none

/-- Number of reads performed on stream `s`. -/
def readCount (s : Stream) (t : List Event) : Nat := t.countP (Event.isReadOn s)

/-- The byte slices handed to the successive writes on stream `s`, in order. -/
def payloads (s : Stream) (t : List Event) : List (List UInt8) :=
  t.filterMap (Event.payloadOn s)

/-- The script of reads: every chunk without error, then `last` with error `e`. -/
def readScript (chunks : List (List UInt8)) (last : List UInt8) (e : Error) :
    List (List UInt8 × Option Error) :=
  chunks.map (fun c => (c, none)) ++ [(last, some e)]

/-- Whether a list of events is what one iteration of the loop of `copyBuffer`
performs: `Get`, the read on `src`, then either `Put` at once when no byte was
read, or the write of exactly the bytes read to `dst` followed by `Put`. -/
def isIterBlock (dst src : Stream) : List Event → Bool
  | [Event.poolGet, Event.read s d _, Event.poolPut] => decide (s = src) && d.isEmpty
  | [Event.poolGet, Event.read s d _, Event.write s2 p _ _, Event.poolPut] =>
      decide (s = src) && decide (s2 = dst) && decide (p = d) && !d.isEmpty
  | _ => false

/-- The transform that `Relay` builds for a mode: `NewSnappyConn` for the two
snappy modes, `NewCryptConn` otherwise. -/
def transformOf (compressType : Int) (c : Conn) (crypt : Bool) (rate : RatePtr)
    (serial : Nat) : Stream :=
  if compressType = COMPRESS_SNAPY_ENCODE ∨ compressType = COMPRESS_SNAPY_DECODE then
    Stream.snappyConn c crypt rate serial
  else
    Stream.cryptConn c crypt rate serial

/-- Whether an event is one that `copyBuffer(dst, src)` performs: a pool
operation, a read on `src` or a write on `dst`. -/
def isCopyEvent (dst src : Stream) : Event → Bool
  | Event.poolGet => true
  | Event.poolPut => true
  | Event.read s _ _ => decide (s = src)
  | Event.write s _ _ _ => decide (s = dst)
  | _ => false

/-- What follows the copy in the encode modes, after history `t`: close `out`,
build a new transform `mk` over `in`, write the sentinel through it. -/
def encodeTail (env : Env) (mk : Nat → Stream) (out : Conn) (t : List Event) : List Event :=
  let ec := env.Close t out
  let t1 := t ++ [Event.close out ec]
  let s2 := mk t1.length
  let t2 := t1 ++ [Event.construct s2]
  let x := env.Write t2 s2 (bytesOf IO_EOF)
  [Event.close out ec, Event.construct s2, Event.write s2 (bytesOf IO_EOF) x.1 x.2]

/-- What follows the copy in the decode modes, after history `t`: close `in`,
then close `out` unless `mux` is set. -/
def decodeTail (env : Env) (in_ out : Conn) (mux : Bool) (t : List Event) : List Event :=
  let e1 := env.Close t in_
  if mux then [Event.close in_ e1]
  else [Event.close in_ e1, Event.close out (env.Close (t ++ [Event.close in_ e1]) out)]

/-- An environment whose reads follow a script: the `i`-th read on a stream
delivers `script[i]`, and clean end-of-stream once the script is used up.
Every write is accepted in full and every close succeeds. -/
def scriptEnv (script : List (List UInt8 × Option Error)) : Env where
  Read := fun t s => (script.get? (readCount s t)).getD ([], some Error.EOF)
  Write := fun _ _ p => ((p.length : Int), none)
  Close := fun _ _ => none

/-- An environment whose first read on any stream delivers `data` without error
(later reads report `io.EOF`) and whose every write answers `(nw, ew)`. -/
def writeAnswerEnv (data : List UInt8) (nw : Int) (ew : Option Error) : Env where
  Read := fun t s => if readCount s t = 0 then (data, none) else ([], some Error.EOF)
  Write := fun _ _ _ => (nw, ew)
  Close := fun _ _ => none

/-- The connection a stream reads from and writes to. -/
def Stream.connOf : Stream → Conn
  | Stream.conn c => c
  | Stream.snappyConn c _ _ _ => c
  | Stream.cryptConn c _ _ _ => c

/-- Number of reads performed on connection `c`, directly or through a
transform over it. -/
def readsOver (c : Conn) (t : List Event) : Nat :=
  t.countP (fun e => match e with
    | Event.read s _ _ => decide (s.connOf = c)
    | _ => false)

/-- An environment in which connection `c` holds `payload` followed by clean
end-of-stream and every other connection is at end-of-stream.  Transforms are
the identity: a read through a transform over `c` delivers the bytes of `c`.
Every write is accepted in full and every close succeeds. -/
def payloadEnv (c : Conn) (payload : List UInt8) : Env where
  Read := fun t s =>
    if s.connOf = c ∧ readsOver c t = 0 then (payload, none) else ([], some Error.EOF)
  Write := fun _ _ p => ((p.length : Int), none)
  Close := fun _ _ => none

/-- One atomic step of a task: perform the first operation of the program.  A
program that has returned, or that spins, is left as it is. -/
def Prog.step (env : Env) {α : Type} : Prog α → World → Prog α × World
  | .ret a, w => (.ret a, w)
  | .spin, w => (.spin, w)
  | .poolGet k, w =>
      (k, { trace := w.trace ++ [Event.poolGet], outstanding := w.outstanding + 1 })
  | .poolPut k, w =>
      (k, { trace := w.trace ++ [Event.poolPut], outstanding := w.outstanding - 1 })
  | .read s k, w =>
      let r := env.Read w.trace s
      (k r.1 r.2, w.log (Event.read s r.1 r.2))
  | .write s p k, w =>
      let r := env.Write w.trace s p
      (k r.1 r.2, w.log (Event.write s p r.1 r.2))
  | .close c k, w =>
      let e := env.Close w.trace c
      (k e, w.log (Event.close c e))
  | .newSnappy c cr r k, w =>
      let s := Stream.snappyConn c cr r w.trace.length
      (k s, w.log (Event.construct s))
  | .newCrypt c cr r k, w =>
      let s := Stream.cryptConn c cr r w.trace.length
      (k s, w.log (Event.construct s))

/-- Follow a program along a recorded sequence of its own operations and their
outcomes: the program that remains, or `none` when an event is not the
operation the program performs next. -/
def Prog.replay {α : Type} : Prog α → List Event → Option (Prog α)
  | p, [] => some p
  | .poolGet k, Event.poolGet :: t => Prog.replay k t
  | .poolPut k, Event.poolPut :: t => Prog.replay k t
  | .read s k, Event.read s1 d e :: t => if s1 = s then Prog.replay (k d e) t else none
  | .write s p k, Event.write s1 p1 n e :: t =>
      if s1 = s ∧ p1 = p then Prog.replay (k n e) t else none
  | .close c k, Event.close c1 e :: t => if c1 = c then Prog.replay (k e) t else none
  | .newSnappy c cr r k, Event.construct (Stream.snappyConn c1 cr1 r1 n) :: t =>
      if c1 = c ∧ cr1 = cr ∧ r1 = r then Prog.replay (k (Stream.snappyConn c1 cr1 r1 n)) t
      else none
  | .newCrypt c cr r k, Event.construct (Stream.cryptConn c1 cr1 r1 n) :: t =>
      if c1 = c ∧ cr1 = cr ∧ r1 = r then Prog.replay (k (Stream.cryptConn c1 cr1 r1 n)) t
      else none
  | _, _ :: _ => none

/-- The state of one call of `ReplayWaitGroup`: the `WaitGroup` counter, the
named results `in` and `out`, the two tasks and the world they share.  A task
is `some p` while its call of `Relay` is in progress, `p` being what remains of
it, and `none` once the task has stored the byte count (and, for the spawned
task, has called `wg.Done()`). -/
structure Duplex where
  wg : Int
  in_ : Int
  out : Int
  spawned : Option (Prog (Int × Option Error))
  caller : Option (Prog (Int × Option Error))
  world : World

/-- What a program has returned, if it has returned. -/
def Prog.result {α : Type} : Prog α → Option α
  | .ret a => some a
  | _ => none

/-- One scheduling step.  `pick = true` runs the spawned task: when its `Relay`
has returned `(n, _)` it executes `in, _ = ...` and `wg.Done()`, and otherwise
it performs the next operation of its `Relay`.  `pick = false` runs the calling
task: when its `Relay` has returned `(n, _)` it executes `out, _ = ...`, and
otherwise it performs the next operation of its `Relay`; after the assignment
it waits in `wg.Wait()`. -/
def Duplex.step (env : Env) (d : Duplex) (pick : Bool) : Duplex :=
  if pick then
    match d.spawned with
    | none => d
    | some p =>
      match p.result with
      | some r => { d with in_ := r.1, wg := d.wg - 1, spawned := none }
      | none =>
        { d with spawned := some (p.step env d.world).1, world := (p.step env d.world).2 }
  else
    match d.caller with
    | none => d
    | some p =>
      match p.result with
      | some r => { d with out := r.1, caller := none }
      | none =>
        { d with caller := some (p.step env d.world).1, world := (p.step env d.world).2 }

/-- The function `ReplayWaitGroup(conn1, conn2, compressEncode, compressDecode,
crypt, mux, rate)` under the schedule `sched`, which says which of the two
tasks moves at each step.  After `wg.Add(1)` and the `go` statement both tasks are runnable.
The function returns `(out, in)` once the calling task is in `wg.Wait()` and
the counter is zero; `none` means it has not returned within the schedule. -/
def ReplayWaitGroup (env : Env) (sched : List Bool) (fuel : Nat) (conn1 conn2 : Conn)
    (compressEncode compressDecode : Int) (crypt mux : Bool) (rate : RatePtr) (w : World) :
    Option ((Int × Int) × World) :=
  let d0 : Duplex :=
    { wg := 0 + 1, in_ := 0, out := 0,
      spawned := some (Relay fuel conn1 conn2 compressEncode crypt mux rate),
      caller := some (Relay fuel conn2 conn1 compressDecode crypt mux rate),
      world := w }
  let d := sched.foldl (Duplex.step env) d0
  if d.caller.isNone ∧ d.wg = 0 then some ((d.out, d.in_), d.world) else none

/-- The events of a tagged trace that carry the tag `b`, in order. -/
def eventsOf (b : Bool) (tagged : List (Bool × Event)) : List Event :=
  (tagged.filter (fun x => x.1 == b)).map Prod.snd

/-- The invariant of `ReplayWaitGroup`.  The operations performed since the
start can be tagged with the task that performed them so that each task's
operations, in order, lead its call of `Relay` from the start to where it now
stands; the counter is 1 until the spawned task is done and 0 afterwards; a
task that is done has stored the count its `Relay` returned. -/
def DuplexInv (relayS relayC : Prog (Int × Option Error)) (w0 : World) (d : Duplex) : Prop :=
  ∃ tagged : List (Bool × Event),
    d.world.trace = w0.trace ++ tagged.map Prod.snd
    ∧ (match d.spawned with
       | some p => Prog.replay relayS (eventsOf true tagged) = some p ∧ d.wg = 1
       | none =>
          (∃ e, Prog.replay relayS (eventsOf true tagged) = some (Prog.ret (d.in_, e)))
            ∧ d.wg = 0)
    ∧ (match d.caller with
       | some p => Prog.replay relayC (eventsOf false tagged) = some p
       | none => ∃ e, Prog.replay relayC (eventsOf false tagged) = some (Prog.ret (d.out, e)))

/-! ## The interpreter on sequences and on one iteration of the loop -/

theorem bind_eq {α β : Type} (p : Prog α) (f : α → Prog β) : (p >>= f) = Prog.bind p f := rfl

theorem pure_eq {α : Type} (a : α) : (pure a : Prog α) = Prog.ret a := rfl

theorem run_bind (env : Env) {α β : Type} (p : Prog α) (f : α → Prog β) (w : World) :
    run env (Prog.bind p f) w = (run env p w).bind (fun r => run env (f r.1) r.2) := by
  induction p generalizing w with
  | ret a => simp [Prog.bind, run]
  | spin => simp [Prog.bind, run]
  | poolGet k ih => simp [Prog.bind, run, ih]
  | poolPut k ih => simp [Prog.bind, run, ih]
  | read s k ih => simp [Prog.bind, run, ih]
  | write s p k ih => simp [Prog.bind, run, ih]
  | close c k ih => simp [Prog.bind, run, ih]
  | newSnappy c cr r k ih => simp [Prog.bind, run, ih]
  | newCrypt c cr r k ih => simp [Prog.bind, run, ih]

theorem run_checkReadError (env : Env) (er : Option Error) (written : Int)
    (next : Prog (Int × Option Error)) (w : World) :
    run env (checkReadError er written next) w =
      match er with
      | some e => some ((written, if e = Error.EOF then none else some e), w)
      | none => run env next w := by
  cases er with
  | none => rfl
  | some e => by_cases he : e = Error.EOF <;> simp [checkReadError, he, run, pure_eq]

theorem run_copyLoop_succ (env : Env) (dst src : Stream) (fuel : Nat) (written : Int) (w : World) :
    run env (copyLoop dst src (fuel + 1) written) w =
      (let t1 := w.trace ++ [Event.poolGet]
       let r := env.Read t1 src
       let t2 := t1 ++ [Event.read src r.1 r.2]
       if (r.1.length : Int) > 0 then
         let x := env.Write t2 dst r.1
         let w4 : World := ⟨t2 ++ [Event.write dst r.1 x.1 x.2] ++ [Event.poolPut], w.outstanding⟩
         let written1 := if x.1 > 0 then wrapInt64 (written + x.1) else written
         if x.2 ≠ none then some ((written1, x.2), w4)
         else if (r.1.length : Int) ≠ x.1 then some ((written1, some Error.ErrShortWrite), w4)
         else run env (checkReadError r.2 written1 (copyLoop dst src fuel written1)) w4
       else
         run env (checkReadError r.2 written (copyLoop dst src fuel written))
           ⟨t2 ++ [Event.poolPut], w.outstanding⟩) := by
  simp only [copyLoop, bind_eq, pure_eq, bufPoolCopyGet, bufPoolCopyPut, Read, Write, Prog.bind, run, World.log]
  rcases env.Read (w.trace ++ [Event.poolGet]) src with ⟨data, er⟩
  simp only []
  split
  · simp only [Prog.bind, run, World.log]
    rcases env.Write (w.trace ++ [Event.poolGet] ++ [Event.read src data er]) dst data with ⟨nw, ew⟩
    simp only [Nat.add_sub_cancel]
    split
    · simp [run]
    · split
      · simp [run]
      · rfl
  · simp only [Prog.bind, run, World.log, Nat.add_sub_cancel]

theorem wrapInt64_of_range (x : Int) (h0 : 0 ≤ x) (h1 : x < 2 ^ 63) : wrapInt64 x = x := by
  unfold wrapInt64
  have e1 : (2 : Int) ^ 63 = 9223372036854775808 := by norm_num
  have e2 : (2 : Int) ^ 64 = 18446744073709551616 := by norm_num
  rw [e1] at h1
  rw [e1, e2]
  omega

/-! ## Counting reads and collecting writes -/

theorem readCount_append (s : Stream) (a b : List Event) :
    readCount s (a ++ b) = readCount s a + readCount s b := by
  simp [readCount, List.countP_append]

theorem payloads_append (s : Stream) (a b : List Event) :
    payloads s (a ++ b) = payloads s a ++ payloads s b := by
  simp [payloads, List.filterMap_append]

theorem readScript_cons (c : List UInt8) (cs : List (List UInt8)) (last : List UInt8) (e : Error) :
    readScript (c :: cs) last e = (c, none) :: readScript cs last e := rfl

theorem flatten_filter_ne_nil (l : List (List UInt8)) :
    (l.filter (fun c => c ≠ [])).flatten = l.flatten := by
  induction l with
  | nil => rfl
  | cons c cs ih =>
    by_cases h : c = []
    · subst h; simpa using ih
    · simpa [List.filter_cons, h] using ih

/-! ## Runs of the copy loop -/

theorem copyLoop_script (env : Env) (dst src : Stream) (last : List UInt8) (e : Error)
    (chunks : List (List UInt8)) :
    ∀ (fuel : Nat) (written : Int) (w : World),
      (∀ evs r, (readScript chunks last e).get? (readCount src evs) = some r →
          env.Read (w.trace ++ evs) src = r) →
      (∀ evs p, env.Write (w.trace ++ evs) dst p = ((p.length : Int), none)) →
      chunks.length < fuel → 0 ≤ written →
      written + ((chunks.flatten ++ last).length : Int) < 2 ^ 63 →
      ∃ evs, run env (copyLoop dst src fuel written) w
          = some ((written + ((chunks.flatten ++ last).length : Int),
                    if e = Error.EOF then none else some e), ⟨w.trace ++ evs, w.outstanding⟩)
        ∧ payloads dst evs = (chunks ++ [last]).filter (fun c => c ≠ [])
        ∧ readCount src evs = chunks.length + 1 := by
  induction chunks with
  | nil =>
    intro fuel written w hread hwrite hfuel hw hlen
    obtain ⟨f, rfl⟩ : ∃ f, fuel = f + 1 := ⟨fuel - 1, by omega⟩
    have hr := hread [Event.poolGet] (last, some e) (by simp [readScript, readCount, Event.isReadOn])
    rw [run_copyLoop_succ]
    simp only [hr]
    by_cases hl : last = []
    · subst hl
      refine ⟨[Event.poolGet, Event.read src [] (some e), Event.poolPut], ?_, ?_, ?_⟩
      · by_cases he : e = Error.EOF <;> simp [checkReadError, he, run, pure_eq]
      · simp [payloads, Event.payloadOn]
      · simp [readCount, Event.isReadOn]
    · have hpos : (last.length : Int) > 0 := by
        have := List.length_pos.mpr hl
        omega
      have hw1 := hwrite [Event.poolGet, Event.read src last (some e)] last
      simp only [List.append_assoc, List.singleton_append] at hw1 ⊢
      rw [hw1]
      refine ⟨[Event.poolGet, Event.read src last (some e),
        Event.write dst last last.length none, Event.poolPut], ?_, ?_, ?_⟩
      · simp only [List.flatten_nil, List.nil_append] at hlen ⊢
        have hwr : wrapInt64 (written + (last.length : Int)) = written + last.length :=
          wrapInt64_of_range _ (by omega) hlen
        by_cases he : e = Error.EOF <;>
          simp [hpos, hwr, checkReadError, he, run, pure_eq]
      · simp [payloads, Event.payloadOn, hl]
      · simp [readCount, Event.isReadOn]
  | cons c cs ih =>
    intro fuel written w hread hwrite hfuel hw hlen
    obtain ⟨f, rfl⟩ : ∃ f, fuel = f + 1 := ⟨fuel - 1, by simp at hfuel; omega⟩
    have hr := hread [Event.poolGet] (c, none) (by simp [readScript, readCount, Event.isReadOn])
    rw [run_copyLoop_succ]
    simp only [hr]
    simp only [List.flatten_cons, List.append_assoc, List.length_append, List.length_cons,
      Nat.cast_add] at hlen hfuel ⊢
    by_cases hl : c = []
    · subst hl
      obtain ⟨evs, h1, h2, h3⟩ := ih f written
        ⟨w.trace ++ [Event.poolGet] ++ [Event.read src [] none] ++ [Event.poolPut], w.outstanding⟩
        (by
          intro evs r hg
          have := hread ([Event.poolGet, Event.read src [] none, Event.poolPut] ++ evs) r (by
            rw [readCount_append, readScript_cons]
            have : readCount src [Event.poolGet, Event.read src [] none, Event.poolPut] = 1 := by
              simp [readCount, Event.isReadOn]
            rw [this, Nat.add_comm, List.get?_cons_succ]
            exact hg)
          simpa using this)
        (by
          intro evs p
          have := hwrite ([Event.poolGet, Event.read src [] none, Event.poolPut] ++ evs) p
          simpa using this)
        (by omega) hw (by simp only [List.length_append, Nat.cast_add]; simpa using hlen)
      refine ⟨[Event.poolGet, Event.read src [] none, Event.poolPut] ++ evs, ?_, ?_, ?_⟩
      · simpa [checkReadError] using h1
      · rw [payloads_append, h2]
        simp [payloads, Event.payloadOn]
      · rw [readCount_append, h3]
        simp [readCount, Event.isReadOn]
        omega
    · have hpos : (c.length : Int) > 0 := by
        have := List.length_pos.mpr hl
        omega
      have hw1 := hwrite [Event.poolGet, Event.read src c none] c
      simp only [List.append_assoc, List.singleton_append] at hw1 ⊢
      rw [hw1]
      have hwr : wrapInt64 (written + (c.length : Int)) = written + c.length :=
        wrapInt64_of_range _ (by omega) (by omega)
      obtain ⟨evs, h1, h2, h3⟩ := ih f (written + c.length)
        ⟨w.trace ++ [Event.poolGet, Event.read src c none,
          Event.write dst c c.length none, Event.poolPut], w.outstanding⟩
        (by
          intro evs r hg
          have := hread ([Event.poolGet, Event.read src c none,
            Event.write dst c c.length none, Event.poolPut] ++ evs) r (by
            rw [readCount_append, readScript_cons]
            have : readCount src [Event.poolGet, Event.read src c none,
                Event.write dst c c.length none, Event.poolPut] = 1 := by
              simp [readCount, Event.isReadOn]
            rw [this, Nat.add_comm, List.get?_cons_succ]
            exact hg)
          simpa using this)
        (by
          intro evs p
          have := hwrite ([Event.poolGet, Event.read src c none,
            Event.write dst c c.length none, Event.poolPut] ++ evs) p
          simpa using this)
        (by omega) (by omega) (by simp only [List.length_append, Nat.cast_add]; omega)
      refine ⟨[Event.poolGet, Event.read src c none,
          Event.write dst c c.length none, Event.poolPut] ++ evs, ?_, ?_, ?_⟩
      · simpa [hpos, hwr, checkReadError, Int.add_assoc] using h1
      · rw [payloads_append, h2]
        simp [payloads, Event.payloadOn, hl]
      · rw [readCount_append, h3]
        simp [readCount, Event.isReadOn]
        omega

theorem copyLoop_blocks (env : Env) (dst src : Stream) (fuel : Nat) :
    ∀ (written : Int) (w : World) (r : Int × Option Error) (w1 : World),
      run env (copyLoop dst src fuel written) w = some (r, w1) →
      ∃ blocks : List (List Event), w1.trace = w.trace ++ blocks.flatten
        ∧ (∀ b ∈ blocks, isIterBlock dst src b = true)
        ∧ w1.outstanding = w.outstanding := by
  induction fuel with
  | zero => intro written w r w1 h; simp [copyLoop, run] at h
  | succ f ih =>
    intro written w r w1 h
    rw [run_copyLoop_succ] at h
    rcases hrd : env.Read (w.trace ++ [Event.poolGet]) src with ⟨data, er⟩
    simp only [hrd] at h
    by_cases hpos : (data.length : Int) > 0
    · have hne : data ≠ [] := by
        intro h0; subst h0; simp at hpos
      rcases hwr : env.Write (w.trace ++ [Event.poolGet] ++ [Event.read src data er]) dst data
        with ⟨nw, ew⟩
      simp only [hpos, hwr, if_true] at h
      have hb : isIterBlock dst src
          [Event.poolGet, Event.read src data er, Event.write dst data nw ew, Event.poolPut]
          = true := by
        simp [isIterBlock, hne]
      by_cases hew : ew ≠ none
      · rw [if_pos hew] at h
        simp only [Option.some.injEq, Prod.mk.injEq] at h
        refine ⟨[[Event.poolGet, Event.read src data er, Event.write dst data nw ew,
          Event.poolPut]], ?_, ?_, ?_⟩
        · rw [← h.2]; simp
        · intro b hb1; simp at hb1; subst hb1; exact hb
        · rw [← h.2]
      · rw [if_neg hew] at h
        by_cases hsh : (data.length : Int) ≠ nw
        · rw [if_pos hsh] at h
          simp only [Option.some.injEq, Prod.mk.injEq] at h
          refine ⟨[[Event.poolGet, Event.read src data er, Event.write dst data nw ew,
            Event.poolPut]], ?_, ?_, ?_⟩
          · rw [← h.2]; simp
          · intro b hb1; simp at hb1; subst hb1; exact hb
          · rw [← h.2]
        · rw [if_neg hsh] at h
          simp only [run_checkReadError] at h
          cases er with
          | some e =>
            simp only [Option.some.injEq, Prod.mk.injEq] at h
            refine ⟨[[Event.poolGet, Event.read src data (some e), Event.write dst data nw ew,
              Event.poolPut]], ?_, ?_, ?_⟩
            · rw [← h.2]; simp
            · intro b hb1; simp at hb1; subst hb1; exact hb
            · rw [← h.2]
          | none =>
            simp only at h
            obtain ⟨bs, h1, h2, h3⟩ := ih _ _ r w1 h
            refine ⟨[Event.poolGet, Event.read src data none, Event.write dst data nw ew,
              Event.poolPut] :: bs, ?_, ?_, ?_⟩
            · rw [h1]; simp
            · intro b hb1
              rcases List.mem_cons.mp hb1 with hb2 | hb2
              · subst hb2; exact hb
              · exact h2 b hb2
            · rw [h3]
    · have he : data = [] := by
        cases data with
        | nil => rfl
        | cons a l => simp at hpos
      subst he
      rw [if_neg hpos] at h
      simp only [run_checkReadError] at h
      have hb : ∀ er, isIterBlock dst src [Event.poolGet, Event.read src [] er, Event.poolPut]
          = true := by
        intro er; simp [isIterBlock]
      cases er with
      | some e =>
        simp only [Option.some.injEq, Prod.mk.injEq] at h
        refine ⟨[[Event.poolGet, Event.read src [] (some e), Event.poolPut]], ?_, ?_, ?_⟩
        · rw [← h.2]; simp
        · intro b hb1; simp at hb1; subst hb1; exact hb _
        · rw [← h.2]
      | none =>
        simp only at h
        obtain ⟨bs, h1, h2, h3⟩ := ih _ _ r w1 h
        refine ⟨[Event.poolGet, Event.read src [] none, Event.poolPut] :: bs, ?_, ?_, ?_⟩
        · rw [h1]; simp
        · intro b hb1
          rcases List.mem_cons.mp hb1 with hb2 | hb2
          · subst hb2; exact hb _
          · exact h2 b hb2
        · rw [h3]

theorem isIterBlock_events (dst src : Stream) (b : List Event) (h : isIterBlock dst src b = true) :
    ∀ e ∈ b, isCopyEvent dst src e = true := by
  unfold isIterBlock at h
  split at h
  · simp at h
    intro e he
    simp at he
    rcases he with rfl | rfl | rfl <;> simp [isCopyEvent, h.1]
  · simp at h
    intro e he
    simp at he
    rcases he with rfl | rfl | rfl | rfl <;> simp [isCopyEvent, h.1.1.1, h.1.1.2]
  · simp at h

theorem copyBuffer_events (env : Env) (dst src : Stream) (fuel : Nat) (w : World)
    (r : Int × Option Error) (w1 : World)
    (h : run env (copyBuffer fuel dst src) w = some (r, w1)) :
    ∃ evs, w1.trace = w.trace ++ evs ∧ (∀ e ∈ evs, isCopyEvent dst src e = true)
      ∧ w1.outstanding = w.outstanding := by
  obtain ⟨bs, h1, h2, h3⟩ := copyLoop_blocks env dst src fuel 0 w r w1 h
  refine ⟨bs.flatten, h1, ?_, h3⟩
  intro e he
  obtain ⟨b, hb, heb⟩ := List.mem_flatten.mp he
  exact isIterBlock_events dst src b (h2 b hb) e heb

theorem isIterBlock_counts (dst src : Stream) (b : List Event)
    (h : isIterBlock dst src b = true) :
    b.count Event.poolGet = 1 ∧ b.count Event.poolPut = 1 ∧ readCount src b = 1 := by
  unfold isIterBlock at h
  split at h
  · simp at h
    simp [List.count_cons, readCount, Event.isReadOn, h.1]
  · simp at h
    simp [List.count_cons, readCount, Event.isReadOn, h.1.1.1]
  · simp at h

theorem blocks_counts (dst src : Stream) (blocks : List (List Event))
    (h : ∀ b ∈ blocks, isIterBlock dst src b = true) :
    blocks.flatten.count Event.poolGet = blocks.length
      ∧ blocks.flatten.count Event.poolPut = blocks.length
      ∧ readCount src blocks.flatten = blocks.length := by
  induction blocks with
  | nil => simp [readCount]
  | cons b bs ih =>
    obtain ⟨h1, h2, h3⟩ := isIterBlock_counts dst src b (h b (List.mem_cons_self b bs))
    obtain ⟨i1, i2, i3⟩ := ih (fun c hc => h c (List.mem_cons_of_mem b hc))
    refine ⟨?_, ?_, ?_⟩
    · simp [List.count_append, h1, i1]; omega
    · simp [List.count_append, h2, i2]; omega
    · simp [readCount_append, h3, i3]; omega

/-! ## Runs of `Relay`, mode by mode -/

theorem run_Relay_snappy_encode (env : Env) (fuel : Nat) (in_ out : Conn) (crypt mux : Bool)
    (rate : RatePtr) (w : World) :
    run env (Relay fuel in_ out COMPRESS_SNAPY_ENCODE crypt mux rate) w =
      (run env (copyBuffer fuel (Stream.snappyConn in_ crypt rate w.trace.length) (Stream.conn out))
        (w.log (Event.construct (Stream.snappyConn in_ crypt rate w.trace.length)))).bind
        (fun r => some (r.1, ⟨r.2.trace ++ encodeTail env (Stream.snappyConn in_ crypt rate) out
          r.2.trace, r.2.outstanding⟩)) := by
  simp only [Relay, COMPRESS_SNAPY_ENCODE, if_true, bind_eq, pure_eq, NewSnappyConn, Prog.bind, run,
    run_bind]
  cases run env (copyBuffer fuel (Stream.snappyConn in_ crypt rate w.trace.length)
    (Stream.conn out)) (w.log (Event.construct (Stream.snappyConn in_ crypt rate w.trace.length))) with
  | none => rfl
  | some r =>
    simp [Close, Write, run, Prog.bind, encodeTail, World.log]

theorem run_Relay_none_encode (env : Env) (fuel : Nat) (in_ out : Conn) (crypt mux : Bool)
    (rate : RatePtr) (w : World) :
    run env (Relay fuel in_ out COMPRESS_NONE_ENCODE crypt mux rate) w =
      (run env (copyBuffer fuel (Stream.cryptConn in_ crypt rate w.trace.length) (Stream.conn out))
        (w.log (Event.construct (Stream.cryptConn in_ crypt rate w.trace.length)))).bind
        (fun r => some (r.1, ⟨r.2.trace ++ encodeTail env (Stream.cryptConn in_ crypt rate) out
          r.2.trace, r.2.outstanding⟩)) := by
  simp only [Relay, COMPRESS_SNAPY_ENCODE, COMPRESS_NONE_ENCODE, COMPRESS_SNAPY_DECODE,
    show ¬ ((0 : Int) = 2) by decide, show ¬ ((0 : Int) = 3) by decide, if_false, if_true,
    bind_eq, pure_eq, NewCryptConn, Prog.bind, run, run_bind]
  cases run env (copyBuffer fuel (Stream.cryptConn in_ crypt rate w.trace.length)
    (Stream.conn out)) (w.log (Event.construct (Stream.cryptConn in_ crypt rate w.trace.length))) with
  | none => rfl
  | some r =>
    simp [Close, Write, run, Prog.bind, encodeTail, World.log]

theorem run_Relay_snappy_decode (env : Env) (fuel : Nat) (in_ out : Conn) (crypt mux : Bool)
    (rate : RatePtr) (w : World) :
    run env (Relay fuel in_ out COMPRESS_SNAPY_DECODE crypt mux rate) w =
      (run env (copyBuffer fuel (Stream.conn in_) (Stream.snappyConn out crypt rate w.trace.length))
        (w.log (Event.construct (Stream.snappyConn out crypt rate w.trace.length)))).bind
        (fun r => some (r.1, ⟨r.2.trace ++ decodeTail env in_ out mux r.2.trace,
          r.2.outstanding⟩)) := by
  simp only [Relay, COMPRESS_SNAPY_ENCODE, COMPRESS_SNAPY_DECODE]
  simp only [show ¬ ((3 : Int) = 2) by decide, if_false, if_true, bind_eq, pure_eq, NewSnappyConn,
    Prog.bind, run, run_bind]
  cases run env (copyBuffer fuel (Stream.conn in_) (Stream.snappyConn out crypt rate w.trace.length))
    (w.log (Event.construct (Stream.snappyConn out crypt rate w.trace.length))) with
  | none => rfl
  | some r =>
    cases mux <;> simp [Close, run, Prog.bind, decodeTail, World.log, run_bind]

theorem run_Relay_none_decode (env : Env) (fuel : Nat) (in_ out : Conn) (crypt mux : Bool)
    (rate : RatePtr) (w : World) :
    run env (Relay fuel in_ out COMPRESS_NONE_DECODE crypt mux rate) w =
      (run env (copyBuffer fuel (Stream.conn in_) (Stream.cryptConn out crypt rate w.trace.length))
        (w.log (Event.construct (Stream.cryptConn out crypt rate w.trace.length)))).bind
        (fun r => some (r.1, ⟨r.2.trace ++ decodeTail env in_ out mux r.2.trace,
          r.2.outstanding⟩)) := by
  simp only [Relay, COMPRESS_SNAPY_ENCODE, COMPRESS_SNAPY_DECODE, COMPRESS_NONE_ENCODE,
    COMPRESS_NONE_DECODE]
  simp only [show ¬ ((1 : Int) = 2) by decide, show ¬ ((1 : Int) = 3) by decide,
    show ¬ ((1 : Int) = 0) by decide, if_false, if_true, bind_eq, pure_eq, NewCryptConn,
    Prog.bind, run, run_bind]
  cases run env (copyBuffer fuel (Stream.conn in_) (Stream.cryptConn out crypt rate w.trace.length))
    (w.log (Event.construct (Stream.cryptConn out crypt rate w.trace.length))) with
  | none => rfl
  | some r =>
    cases mux <;> simp [Close, run, Prog.bind, decodeTail, World.log, run_bind]

/-! ## Interleaved runs of the two directions -/

theorem run_step (env : Env) {α : Type} (p : Prog α) (w : World) :
    run env p w = run env (p.step env w).1 (p.step env w).2 := by
  cases p <;> rfl

theorem replay_nil {α : Type} (p : Prog α) : Prog.replay p [] = some p := by
  cases p <;> rfl

theorem replay_append {α : Type} (a b : List Event) :
    ∀ p : Prog α, Prog.replay p (a ++ b) = (Prog.replay p a).bind (fun q => Prog.replay q b) := by
  induction a with
  | nil => intro p; simp [replay_nil]
  | cons ev t ih =>
    intro p
    cases p <;> cases ev <;> simp [Prog.replay, ih]
    all_goals first
      | (split <;> simp)
      | (rename_i s; cases s <;> simp [Prog.replay, ih]; split <;> simp)

theorem step_replay (env : Env) {α : Type} (p : Prog α) (w : World) :
    ((∃ a, p = Prog.ret a) ∨ p = Prog.spin) ∨
      ∃ ev, (p.step env w).2.trace = w.trace ++ [ev]
        ∧ Prog.replay p [ev] = some (p.step env w).1 := by
  cases p with
  | ret a => exact Or.inl (Or.inl ⟨a, rfl⟩)
  | spin => exact Or.inl (Or.inr rfl)
  | poolGet k => exact Or.inr ⟨Event.poolGet, rfl, by simp [Prog.replay, Prog.step, replay_nil]⟩
  | poolPut k => exact Or.inr ⟨Event.poolPut, rfl, by simp [Prog.replay, Prog.step, replay_nil]⟩
  | read s k =>
    exact Or.inr ⟨Event.read s (env.Read w.trace s).1 (env.Read w.trace s).2, rfl,
      by simp [Prog.replay, Prog.step, replay_nil]⟩
  | write s p k =>
    exact Or.inr ⟨Event.write s p (env.Write w.trace s p).1 (env.Write w.trace s p).2, rfl,
      by simp [Prog.replay, Prog.step, replay_nil]⟩
  | close c k =>
    exact Or.inr ⟨Event.close c (env.Close w.trace c), rfl,
      by simp [Prog.replay, Prog.step, replay_nil]⟩
  | newSnappy c cr r k =>
    exact Or.inr ⟨Event.construct (Stream.snappyConn c cr r w.trace.length), rfl,
      by simp [Prog.replay, Prog.step, replay_nil]⟩
  | newCrypt c cr r k =>
    exact Or.inr ⟨Event.construct (Stream.cryptConn c cr r w.trace.length), rfl,
      by simp [Prog.replay, Prog.step, replay_nil]⟩

theorem run_replay (env : Env) {α : Type} (p : Prog α) :
    ∀ (w : World) (a : α) (w1 : World), run env p w = some (a, w1) →
      ∃ evs, w1.trace = w.trace ++ evs ∧ Prog.replay p evs = some (Prog.ret a) := by
  induction p with
  | ret b =>
    intro w a w1 h
    simp only [run, Option.some.injEq, Prod.mk.injEq] at h
    exact ⟨[], by simp [h.2], by rw [replay_nil, h.1]⟩
  | spin => intro w a w1 h; simp [run] at h
  | poolGet k ih =>
    intro w a w1 h
    obtain ⟨evs, h1, h2⟩ := ih _ a w1 h
    exact ⟨Event.poolGet :: evs, by simpa using h1, by simpa [Prog.replay] using h2⟩
  | poolPut k ih =>
    intro w a w1 h
    obtain ⟨evs, h1, h2⟩ := ih _ a w1 h
    exact ⟨Event.poolPut :: evs, by simpa using h1, by simpa [Prog.replay] using h2⟩
  | read s k ih =>
    intro w a w1 h
    obtain ⟨evs, h1, h2⟩ := ih _ _ _ a w1 h
    exact ⟨Event.read s _ _ :: evs, by simpa [World.log] using h1,
      by simpa [Prog.replay] using h2⟩
  | write s p k ih =>
    intro w a w1 h
    obtain ⟨evs, h1, h2⟩ := ih _ _ _ a w1 h
    exact ⟨Event.write s p _ _ :: evs, by simpa [World.log] using h1,
      by simpa [Prog.replay] using h2⟩
  | close c k ih =>
    intro w a w1 h
    obtain ⟨evs, h1, h2⟩ := ih _ _ a w1 h
    exact ⟨Event.close c _ :: evs, by simpa [World.log] using h1,
      by simpa [Prog.replay] using h2⟩
  | newSnappy c cr r k ih =>
    intro w a w1 h
    obtain ⟨evs, h1, h2⟩ := ih _ _ a w1 h
    exact ⟨Event.construct (Stream.snappyConn c cr r w.trace.length) :: evs,
      by simpa [World.log] using h1, by simpa [Prog.replay] using h2⟩
  | newCrypt c cr r k ih =>
    intro w a w1 h
    obtain ⟨evs, h1, h2⟩ := ih _ _ a w1 h
    exact ⟨Event.construct (Stream.cryptConn c cr r w.trace.length) :: evs,
      by simpa [World.log] using h1, by simpa [Prog.replay] using h2⟩

theorem result_eq_some {α : Type} (p : Prog α) (a : α) (h : p.result = some a) :
    p = Prog.ret a := by
  cases p <;> simp [Prog.result] at h
  rw [h]

theorem eventsOf_append_same (b : Bool) (tagged : List (Bool × Event)) (ev : Event) :
    eventsOf b (tagged ++ [(b, ev)]) = eventsOf b tagged ++ [ev] := by
  simp [eventsOf, List.filter_append]

theorem eventsOf_append_other (b : Bool) (tagged : List (Bool × Event)) (ev : Event) :
    eventsOf b (tagged ++ [(!b, ev)]) = eventsOf b tagged := by
  cases b <;> simp [eventsOf, List.filter_append]

theorem DuplexInv_step (env : Env) (relayS relayC : Prog (Int × Option Error)) (w0 : World)
    (d : Duplex) (pick : Bool) (h : DuplexInv relayS relayC w0 d) :
    DuplexInv relayS relayC w0 (d.step env pick) := by
  obtain ⟨tagged, ht, hs, hc⟩ := h
  cases pick with
  | true =>
    simp only [Duplex.step, if_true]
    cases hsp : d.spawned with
    | none => simp only []; exact ⟨tagged, ht, hs, hc⟩
    | some p =>
      rw [hsp] at hs
      simp only [] at hs ⊢
      cases hres : p.result with
      | some r =>
        simp only []
        have hp := result_eq_some p r hres
        subst hp
        exact ⟨tagged, ht, ⟨⟨r.2, hs.1⟩, by rw [hs.2]; rfl⟩, hc⟩
      | none =>
        simp only []
        rcases step_replay env p d.world with (⟨a, rfl⟩ | rfl) | ⟨ev, h1, h2⟩
        · simp [Prog.result] at hres
        · exact ⟨tagged, ht, hs, hc⟩
        · refine ⟨tagged ++ [(true, ev)], ?_, ?_, ?_⟩
          · simp only [h1, ht, List.map_append, List.map_cons, List.map_nil, List.append_assoc]
          · simp only []
            rw [eventsOf_append_same, replay_append, hs.1]
            exact ⟨h2, hs.2⟩
          · have := eventsOf_append_other false tagged ev
            simp only [Bool.not_false] at this
            simp only [this]
            exact hc
  | false =>
    simp only [Duplex.step, Bool.false_eq_true, if_false]
    cases hcl : d.caller with
    | none => simp only []; exact ⟨tagged, ht, hs, hc⟩
    | some p =>
      rw [hcl] at hc
      simp only [] at hc ⊢
      cases hres : p.result with
      | some r =>
        simp only []
        have hp := result_eq_some p r hres
        subst hp
        exact ⟨tagged, ht, hs, ⟨r.2, hc⟩⟩
      | none =>
        simp only []
        rcases step_replay env p d.world with (⟨a, rfl⟩ | rfl) | ⟨ev, h1, h2⟩
        · simp [Prog.result] at hres
        · exact ⟨tagged, ht, hs, hc⟩
        · refine ⟨tagged ++ [(false, ev)], ?_, ?_, ?_⟩
          · simp only [h1, ht, List.map_append, List.map_cons, List.map_nil, List.append_assoc]
          · have := eventsOf_append_other true tagged ev
            simp only [Bool.not_true] at this
            simp only [this]
            exact hs
          · simp only []
            rw [eventsOf_append_same, replay_append, hc]
            exact h2

theorem DuplexInv_foldl (env : Env) (relayS relayC : Prog (Int × Option Error)) (w0 : World)
    (sched : List Bool) :
    ∀ d, DuplexInv relayS relayC w0 d →
      DuplexInv relayS relayC w0 (sched.foldl (Duplex.step env) d) := by
  induction sched with
  | nil => intro d h; exact h
  | cons b t ih => intro d h; exact ih _ (DuplexInv_step env relayS relayC w0 d b h)

/-! ## `copyBuffer`: payload, errors, pool -/

/-- C1. `copyBuffer` forwards a payload unchanged.  The source delivers the
chunks `chunks` one read at a time and then reports `io.EOF`, together with the
last bytes `last` or alone (`last = []`); the payload is
`P = chunks.flatten ++ last`, possibly empty.  If the destination accepts every
write in full and without error, then `copyBuffer` returns `(len(P), nil)`, the
slices it handed to the destination are the non-empty chunks in read order, and
their concatenation is `P`.  `len(P)` is a Go `int`, so below `2^63`. -/
theorem copyBuffer_copies_payload (env : Env) (dst src : Stream)
    (chunks : List (List UInt8)) (last : List UInt8) (fuel : Nat) (w : World)
    (hread : ∀ evs r, (readScript chunks last Error.EOF).get? (readCount src evs) = some r →
      env.Read (w.trace ++ evs) src = r)
    (hwrite : ∀ evs p, env.Write (w.trace ++ evs) dst p = ((p.length : Int), none))
    (hfuel : chunks.length < fuel)
    (hlen : (chunks.flatten ++ last).length < 2 ^ 63) :
    ∃ evs, run env (copyBuffer fuel dst src) w
        = some ((((chunks.flatten ++ last).length : Int), none),
            ⟨w.trace ++ evs, w.outstanding⟩)
      ∧ payloads dst evs = (chunks ++ [last]).filter (fun c => c ≠ [])
      ∧ (payloads dst evs).flatten = chunks.flatten ++ last := by
  have hlen1 : (0 : Int) + ((chunks.flatten ++ last).length : Int) < 2 ^ 63 := by
    have : (((chunks.flatten ++ last).length : Nat) : Int) < ((2 ^ 63 : Nat) : Int) :=
      Int.ofNat_lt.mpr hlen
    simpa using this
  obtain ⟨evs, h1, h2, _⟩ := copyLoop_script env dst src last Error.EOF chunks fuel 0 w
    hread hwrite hfuel (le_refl 0) hlen1
  refine ⟨evs, ?_, h2, ?_⟩
  · simpa [copyBuffer] using h1
  · rw [h2, flatten_filter_ne_nil]; simp

theorem copyBuffer_copies_payload_witness :
    ∃ evs, run (scriptEnv (readScript [[104, 105], [33]] [] Error.EOF))
        (copyBuffer 3 (Stream.conn 1) (Stream.conn 0)) ⟨[], 0⟩
        = some (((([[104, 105], [33]].flatten ++ ([] : List UInt8)).length : Int), none),
            ⟨[] ++ evs, 0⟩)
      ∧ payloads (Stream.conn 1) evs
          = ([[104, 105], [33]] ++ [([] : List UInt8)]).filter (fun c => c ≠ [])
      ∧ (payloads (Stream.conn 1) evs).flatten = [[104, 105], [33]].flatten ++ [] :=
  copyBuffer_copies_payload (scriptEnv (readScript [[104, 105], [33]] [] Error.EOF))
    (Stream.conn 1) (Stream.conn 0) [[104, 105], [33]] [] 3 ⟨[], 0⟩
    (by intro evs r h; simp only [scriptEnv, List.nil_append, h, Option.getD_some])
    (by intro evs p; rfl) (by decide) (by decide)

/-- C2, as stated, fails.  The read returns the 11 bytes of "hello world"; the
write reports 3 bytes, fewer than 11, together with an error (number 32); and
`copyBuffer` returns that write error, not `io.ErrShortWrite`. -/
theorem copyBuffer_short_write_with_error :
    ((writeAnswerEnv (bytesOf "hello world") 3 (some (Error.other 32))).Read
        [Event.poolGet] (Stream.conn 0)).1.length = 11
    ∧ ((writeAnswerEnv (bytesOf "hello world") 3 (some (Error.other 32))).Write
        [Event.poolGet, Event.read (Stream.conn 0) (bytesOf "hello world") none]
        (Stream.conn 1) (bytesOf "hello world")).1 < 11
    ∧ (run (writeAnswerEnv (bytesOf "hello world") 3 (some (Error.other 32)))
        (copyBuffer 5 (Stream.conn 1) (Stream.conn 0)) ⟨[], 0⟩).map (fun r => r.1)
        = some (3, some (Error.other 32))
    ∧ (run (writeAnswerEnv (bytesOf "hello world") 3 (some (Error.other 32)))
        (copyBuffer 5 (Stream.conn 1) (Stream.conn 0)) ⟨[], 0⟩).map (fun r => r.1.2)
        ≠ some (some Error.ErrShortWrite) := by
  decide

/-- C2, amended.  In any iteration of the loop of `copyBuffer` (entered with any
running total `written`, after any history) in which the read returns `nr > 0`
bytes and the write reports a count `nw < nr`, the loop stops after that write
and the `Put` that follows it, and `copyBuffer` returns `io.ErrShortWrite` when
the write reported a nil error, and the error of the write when it reported
one.  The count returned is the running total, increased by `nw` when
`nw > 0`. -/
theorem copyLoop_short_write (env : Env) (dst src : Stream) (fuel : Nat) (written : Int)
    (w : World) (data : List UInt8) (er : Option Error) (nw : Int) (ew : Option Error)
    (hread : env.Read (w.trace ++ [Event.poolGet]) src = (data, er))
    (hnr : 0 < data.length)
    (hwrite : env.Write (w.trace ++ [Event.poolGet, Event.read src data er]) dst data = (nw, ew))
    (hshort : nw < data.length) :
    run env (copyLoop dst src (fuel + 1) written) w
      = some ((if nw > 0 then wrapInt64 (written + nw) else written,
            if ew = none then some Error.ErrShortWrite else ew),
          ⟨w.trace ++ [Event.poolGet, Event.read src data er, Event.write dst data nw ew,
            Event.poolPut], w.outstanding⟩) := by
  have hpos : (data.length : Int) > 0 := by omega
  have hwrite1 : env.Write (w.trace ++ [Event.poolGet] ++ [Event.read src data er]) dst data
      = (nw, ew) := by simpa using hwrite
  have hne : (data.length : Int) ≠ nw := by omega
  rw [run_copyLoop_succ]
  simp only [hread, hwrite1, if_pos hpos]
  by_cases h1 : ew = none
  · simp [h1, hne]
  · simp [h1]

theorem copyLoop_short_write_witness :
    run (writeAnswerEnv (bytesOf "hello world") 3 none)
        (copyLoop (Stream.conn 1) (Stream.conn 0) (4 + 1) 0) ⟨[], 0⟩
      = some ((if (3 : Int) > 0 then wrapInt64 (0 + 3) else 0,
            if (none : Option Error) = none then some Error.ErrShortWrite else none),
          ⟨[] ++ [Event.poolGet, Event.read (Stream.conn 0) (bytesOf "hello world") none,
            Event.write (Stream.conn 1) (bytesOf "hello world") 3 none, Event.poolPut], 0⟩) :=
  copyLoop_short_write (writeAnswerEnv (bytesOf "hello world") 3 none)
    (Stream.conn 1) (Stream.conn 0) 4 0 ⟨[], 0⟩ (bytesOf "hello world") none 3 none
    (by decide) (by decide) (by decide) (by decide)

/-- C3. Read errors of `copyBuffer`, when every write is accepted in full.  The
source delivers the chunks `chunks` without error and then a read that returns
the bytes `last` (possibly none) together with the error `e`.  `copyBuffer`
forwards `last` like every other chunk and stops: it returns exactly `e` when
`e` is not `io.EOF` and the nil error when `e` is `io.EOF`, in both cases with
the total number of bytes written, those of the last read included; it performs
no read after the one that failed. -/
theorem copyBuffer_read_error (env : Env) (dst src : Stream)
    (chunks : List (List UInt8)) (last : List UInt8) (e : Error) (fuel : Nat) (w : World)
    (hread : ∀ evs r, (readScript chunks last e).get? (readCount src evs) = some r →
      env.Read (w.trace ++ evs) src = r)
    (hwrite : ∀ evs p, env.Write (w.trace ++ evs) dst p = ((p.length : Int), none))
    (hfuel : chunks.length < fuel)
    (hlen : (chunks.flatten ++ last).length < 2 ^ 63) :
    ∃ evs, run env (copyBuffer fuel dst src) w
        = some ((((payloads dst evs).flatten.length : Int),
              if e = Error.EOF then none else some e), ⟨w.trace ++ evs, w.outstanding⟩)
      ∧ (payloads dst evs).flatten = chunks.flatten ++ last
      ∧ readCount src evs = chunks.length + 1 := by
  have hlen1 : (0 : Int) + ((chunks.flatten ++ last).length : Int) < 2 ^ 63 := by
    have : (((chunks.flatten ++ last).length : Nat) : Int) < ((2 ^ 63 : Nat) : Int) :=
      Int.ofNat_lt.mpr hlen
    simpa using this
  obtain ⟨evs, h1, h2, h3⟩ := copyLoop_script env dst src last e chunks fuel 0 w
    hread hwrite hfuel (le_refl 0) hlen1
  have h4 : (payloads dst evs).flatten = chunks.flatten ++ last := by
    rw [h2, flatten_filter_ne_nil]; simp
  refine ⟨evs, ?_, h4, h3⟩
  rw [h4]
  simpa [copyBuffer] using h1

theorem copyBuffer_read_error_witness :
    ∃ evs, run (scriptEnv (readScript [[1, 2]] [3] (Error.other 104)))
        (copyBuffer 2 (Stream.conn 1) (Stream.conn 0)) ⟨[], 0⟩
        = some ((((payloads (Stream.conn 1) evs).flatten.length : Int),
              if Error.other 104 = Error.EOF then none else some (Error.other 104)),
            ⟨[] ++ evs, 0⟩)
      ∧ (payloads (Stream.conn 1) evs).flatten = [[1, 2]].flatten ++ [3]
      ∧ readCount (Stream.conn 0) evs = [[(1 : UInt8), 2]].length + 1 :=
  copyBuffer_read_error (scriptEnv (readScript [[1, 2]] [3] (Error.other 104)))
    (Stream.conn 1) (Stream.conn 0) [[1, 2]] [3] (Error.other 104) 2 ⟨[], 0⟩
    (by intro evs r h; simp only [scriptEnv, List.nil_append, h, Option.getD_some])
    (by intro evs p; rfl) (by decide) (by decide)

/-! ## `Relay`: direction and shutdown sequence -/

/-- C4, as stated, fails.  `in` is connection 0 and holds "hello world"; `out`
is connection 1; the transform is the identity.  In mode
`COMPRESS_NONE_ENCODE`, `Relay` reads from `out`, not from `in`: nothing is
read from `in`, `out` receives no byte at all, and `Relay` returns `(0, nil)`
with the 11 bytes still unread. -/
theorem Relay_encode_reads_out :
    (run (payloadEnv 0 (bytesOf "hello world"))
        (Relay 3 0 1 COMPRESS_NONE_ENCODE false false none) ⟨[], 0⟩).map
        (fun r => (r.1, payloads (Stream.conn 1) r.2.trace, readsOver 0 r.2.trace,
          readsOver 1 r.2.trace))
      = some ((0, none), [], 0, 1)
    ∧ (run (payloadEnv 0 (bytesOf "hello world"))
        (Relay 3 0 1 COMPRESS_NONE_ENCODE false false none) ⟨[], 0⟩).map
        (fun r => (payloads (Stream.conn 1) r.2.trace).flatten)
      ≠ some (bytesOf "hello world") := by
  decide

/-- C4, amended.  In the encode modes `Relay` builds the transform over `in`
and uses it as the destination of the copy, whose source is the unwrapped
`out`: the copy performs only reads on `out` and writes on that transform.
When the copy ends, with or without error, `Relay` performs exactly: close
`out`, build a second transform over `in`, one write of "PROXYEOF" through it;
it returns the copy's result, and the close of `out` is the only close it
performs.  With the identity
transform and "hello world" held by `out`, the transform over `in` receives
exactly those 11 bytes, `out` is then closed, and the sentinel is then written
through a new transform over `in`. -/
theorem Relay_encode_shutdown (env : Env) (fuel : Nat) (in_ out : Conn) (compressType : Int)
    (crypt mux : Bool) (rate : RatePtr) (w : World) (n : Int) (err : Option Error) (w1 : World)
    (hct : compressType = COMPRESS_NONE_ENCODE ∨ compressType = COMPRESS_SNAPY_ENCODE)
    (hcopy : run env (copyBuffer fuel (transformOf compressType in_ crypt rate w.trace.length)
        (Stream.conn out))
        (w.log (Event.construct (transformOf compressType in_ crypt rate w.trace.length)))
      = some ((n, err), w1)) :
    (∃ evs ec nw ew,
      w1.trace = w.trace
          ++ Event.construct (transformOf compressType in_ crypt rate w.trace.length) :: evs
      ∧ (∀ e ∈ evs, isCopyEvent (transformOf compressType in_ crypt rate w.trace.length)
          (Stream.conn out) e = true)
      ∧ run env (Relay fuel in_ out compressType crypt mux rate) w
          = some ((n, err), ⟨w1.trace ++
              [Event.close out ec,
               Event.construct (transformOf compressType in_ crypt rate (w1.trace.length + 1)),
               Event.write (transformOf compressType in_ crypt rate (w1.trace.length + 1))
                 (bytesOf IO_EOF) nw ew], w1.outstanding⟩)
      ∧ transformOf compressType in_ crypt rate (w1.trace.length + 1)
          ≠ transformOf compressType in_ crypt rate w.trace.length)
    ∧ run (payloadEnv 1 (bytesOf "hello world"))
        (Relay 3 0 1 COMPRESS_NONE_ENCODE false false none) ⟨[], 0⟩
      = some ((11, none), ⟨[Event.construct (Stream.cryptConn 0 false none 0),
          Event.poolGet,
          Event.read (Stream.conn 1) (bytesOf "hello world") none,
          Event.write (Stream.cryptConn 0 false none 0) (bytesOf "hello world") 11 none,
          Event.poolPut,
          Event.poolGet,
          Event.read (Stream.conn 1) [] (some Error.EOF),
          Event.poolPut,
          Event.close 1 none,
          Event.construct (Stream.cryptConn 0 false none 9),
          Event.write (Stream.cryptConn 0 false none 9) (bytesOf "PROXYEOF") 8 none], 0⟩) := by
  refine ⟨?_, by decide⟩
  obtain ⟨evs, h1, h2, _⟩ := copyBuffer_events env _ _ fuel _ _ _ hcopy
  have h1a : w1.trace = w.trace
      ++ Event.construct (transformOf compressType in_ crypt rate w.trace.length) :: evs := by
    rw [h1]; simp [World.log]
  have hlen : w1.trace.length + 1 ≠ w.trace.length := by
    rw [h1a]; simp; omega
  rcases hct with hct | hct
  · subst hct
    have ht : ∀ k, transformOf COMPRESS_NONE_ENCODE in_ crypt rate k
        = Stream.cryptConn in_ crypt rate k := by
      intro k; simp [transformOf, COMPRESS_NONE_ENCODE, COMPRESS_SNAPY_ENCODE, COMPRESS_SNAPY_DECODE]
    simp only [ht] at hcopy h1a h2 ⊢
    refine ⟨evs, env.Close w1.trace out,
      (env.Write (w1.trace ++ [Event.close out (env.Close w1.trace out)] ++
        [Event.construct (Stream.cryptConn in_ crypt rate (w1.trace.length + 1))])
        (Stream.cryptConn in_ crypt rate (w1.trace.length + 1)) (bytesOf IO_EOF)).1,
      (env.Write (w1.trace ++ [Event.close out (env.Close w1.trace out)] ++
        [Event.construct (Stream.cryptConn in_ crypt rate (w1.trace.length + 1))])
        (Stream.cryptConn in_ crypt rate (w1.trace.length + 1)) (bytesOf IO_EOF)).2,
      h1a, h2, ?_, ?_⟩
    · rw [run_Relay_none_encode, hcopy]
      simp only [Option.bind, encodeTail, List.length_append, List.length_singleton]
    · simpa using hlen
  · subst hct
    have ht : ∀ k, transformOf COMPRESS_SNAPY_ENCODE in_ crypt rate k
        = Stream.snappyConn in_ crypt rate k := by
      intro k; simp [transformOf]
    simp only [ht] at hcopy h1a h2 ⊢
    refine ⟨evs, env.Close w1.trace out,
      (env.Write (w1.trace ++ [Event.close out (env.Close w1.trace out)] ++
        [Event.construct (Stream.snappyConn in_ crypt rate (w1.trace.length + 1))])
        (Stream.snappyConn in_ crypt rate (w1.trace.length + 1)) (bytesOf IO_EOF)).1,
      (env.Write (w1.trace ++ [Event.close out (env.Close w1.trace out)] ++
        [Event.construct (Stream.snappyConn in_ crypt rate (w1.trace.length + 1))])
        (Stream.snappyConn in_ crypt rate (w1.trace.length + 1)) (bytesOf IO_EOF)).2,
      h1a, h2, ?_, ?_⟩
    · rw [run_Relay_snappy_encode, hcopy]
      simp only [Option.bind, encodeTail, List.length_append, List.length_singleton]
    · simpa using hlen

theorem Relay_encode_shutdown_witness :
    (∃ evs ec nw ew,
      (⟨[Event.construct (Stream.snappyConn 0 true none 0), Event.poolGet,
          Event.read (Stream.conn 1) [] (some Error.EOF), Event.poolPut], 0⟩ : World).trace
        = (⟨[], 0⟩ : World).trace
          ++ Event.construct (transformOf COMPRESS_SNAPY_ENCODE 0 true none
              (⟨[], 0⟩ : World).trace.length) :: evs
      ∧ (∀ e ∈ evs, isCopyEvent (transformOf COMPRESS_SNAPY_ENCODE 0 true none
            (⟨[], 0⟩ : World).trace.length) (Stream.conn 1) e = true)
      ∧ run (payloadEnv 0 [1, 2, 3]) (Relay 3 0 1 COMPRESS_SNAPY_ENCODE true false none) ⟨[], 0⟩
          = some ((0, none), ⟨(⟨[Event.construct (Stream.snappyConn 0 true none 0), Event.poolGet,
              Event.read (Stream.conn 1) [] (some Error.EOF), Event.poolPut], 0⟩ : World).trace ++
              [Event.close 1 ec,
               Event.construct (transformOf COMPRESS_SNAPY_ENCODE 0 true none
                ((⟨[Event.construct (Stream.snappyConn 0 true none 0), Event.poolGet,
                  Event.read (Stream.conn 1) [] (some Error.EOF), Event.poolPut], 0⟩ :
                  World).trace.length + 1)),
               Event.write (transformOf COMPRESS_SNAPY_ENCODE 0 true none
                ((⟨[Event.construct (Stream.snappyConn 0 true none 0), Event.poolGet,
                  Event.read (Stream.conn 1) [] (some Error.EOF), Event.poolPut], 0⟩ :
                  World).trace.length + 1))
                 (bytesOf IO_EOF) nw ew],
              (⟨[Event.construct (Stream.snappyConn 0 true none 0), Event.poolGet,
                Event.read (Stream.conn 1) [] (some Error.EOF), Event.poolPut], 0⟩ :
                World).outstanding⟩)
      ∧ transformOf COMPRESS_SNAPY_ENCODE 0 true none
          ((⟨[Event.construct (Stream.snappyConn 0 true none 0), Event.poolGet,
            Event.read (Stream.conn 1) [] (some Error.EOF), Event.poolPut], 0⟩ :
            World).trace.length + 1)
          ≠ transformOf COMPRESS_SNAPY_ENCODE 0 true none (⟨[], 0⟩ : World).trace.length)
    ∧ run (payloadEnv 1 (bytesOf "hello world"))
        (Relay 3 0 1 COMPRESS_NONE_ENCODE false false none) ⟨[], 0⟩
      = some ((11, none), ⟨[Event.construct (Stream.cryptConn 0 false none 0),
          Event.poolGet,
          Event.read (Stream.conn 1) (bytesOf "hello world") none,
          Event.write (Stream.cryptConn 0 false none 0) (bytesOf "hello world") 11 none,
          Event.poolPut,
          Event.poolGet,
          Event.read (Stream.conn 1) [] (some Error.EOF),
          Event.poolPut,
          Event.close 1 none,
          Event.construct (Stream.cryptConn 0 false none 9),
          Event.write (Stream.cryptConn 0 false none 9) (bytesOf "PROXYEOF") 8 none], 0⟩) :=
  Relay_encode_shutdown (payloadEnv 0 [1, 2, 3]) 3 0 1 COMPRESS_SNAPY_ENCODE true false none
    ⟨[], 0⟩ 0 none
    ⟨[Event.construct (Stream.snappyConn 0 true none 0), Event.poolGet,
      Event.read (Stream.conn 1) [] (some Error.EOF), Event.poolPut], 0⟩
    (by decide) (by decide)

/-- C5, as stated, fails.  `in` is connection 0 and holds "hello world"; `out`
is connection 1; the transform is the identity.  In mode
`COMPRESS_NONE_DECODE`, `Relay` reads through the transform over `out`, not
from `in`: nothing is read from `in`, the transform over `out` receives no
byte, and `Relay` returns `(0, nil)` after closing both connections. -/
theorem Relay_decode_reads_out :
    (run (payloadEnv 0 (bytesOf "hello world"))
        (Relay 3 0 1 COMPRESS_NONE_DECODE false false none) ⟨[], 0⟩).map
        (fun r => (r.1, readsOver 0 r.2.trace, readsOver 1 r.2.trace,
          payloads (Stream.cryptConn 1 false none 0) r.2.trace))
      = some ((0, none), 0, 1, [])
    ∧ (run (payloadEnv 0 (bytesOf "hello world"))
        (Relay 3 0 1 COMPRESS_NONE_DECODE false false none) ⟨[], 0⟩).map (fun r => r.2.trace)
      = some [Event.construct (Stream.cryptConn 1 false none 0), Event.poolGet,
          Event.read (Stream.cryptConn 1 false none 0) [] (some Error.EOF), Event.poolPut,
          Event.close 0 none, Event.close 1 none]
    ∧ (run (payloadEnv 0 (bytesOf "hello world"))
        (Relay 3 0 1 COMPRESS_NONE_DECODE false false none) ⟨[], 0⟩).map
        (fun r => (payloads (Stream.cryptConn 1 false none 0) r.2.trace).flatten)
      ≠ some (bytesOf "hello world") := by
  decide

/-- C5, amended.  In the decode modes `Relay` builds the transform over `out`
and uses it as the source of the copy, whose destination is the unwrapped
`in`: the copy performs only reads on that transform and writes on `in`.  When
the copy ends, with or without error, `Relay` closes `in`, then closes `out`
exactly when `mux` is false, performs nothing else (no sentinel write), and
returns the copy's result. -/
theorem Relay_decode_shutdown (env : Env) (fuel : Nat) (in_ out : Conn) (compressType : Int)
    (crypt mux : Bool) (rate : RatePtr) (w : World) (n : Int) (err : Option Error) (w1 : World)
    (hct : compressType = COMPRESS_NONE_DECODE ∨ compressType = COMPRESS_SNAPY_DECODE)
    (hcopy : run env (copyBuffer fuel (Stream.conn in_)
        (transformOf compressType out crypt rate w.trace.length))
        (w.log (Event.construct (transformOf compressType out crypt rate w.trace.length)))
      = some ((n, err), w1)) :
    ∃ evs e1 e2,
      w1.trace = w.trace
          ++ Event.construct (transformOf compressType out crypt rate w.trace.length) :: evs
      ∧ (∀ e ∈ evs, isCopyEvent (Stream.conn in_)
          (transformOf compressType out crypt rate w.trace.length) e = true)
      ∧ run env (Relay fuel in_ out compressType crypt mux rate) w
          = some ((n, err), ⟨w1.trace ++
              (if mux then [Event.close in_ e1] else [Event.close in_ e1, Event.close out e2]),
              w1.outstanding⟩) := by
  obtain ⟨evs, h1, h2, _⟩ := copyBuffer_events env _ _ fuel _ _ _ hcopy
  have h1a : w1.trace = w.trace
      ++ Event.construct (transformOf compressType out crypt rate w.trace.length) :: evs := by
    rw [h1]; simp [World.log]
  refine ⟨evs, env.Close w1.trace in_,
    env.Close (w1.trace ++ [Event.close in_ (env.Close w1.trace in_)]) out, h1a, h2, ?_⟩
  rcases hct with hct | hct
  · subst hct
    have ht : ∀ k, transformOf COMPRESS_NONE_DECODE out crypt rate k
        = Stream.cryptConn out crypt rate k := by
      intro k
      simp [transformOf, COMPRESS_NONE_DECODE, COMPRESS_SNAPY_ENCODE, COMPRESS_SNAPY_DECODE]
    simp only [ht] at hcopy
    rw [run_Relay_none_decode, hcopy]
    simp only [Option.bind, decodeTail]
  · subst hct
    have ht : ∀ k, transformOf COMPRESS_SNAPY_DECODE out crypt rate k
        = Stream.snappyConn out crypt rate k := by
      intro k; simp [transformOf]
    simp only [ht] at hcopy
    rw [run_Relay_snappy_decode, hcopy]
    simp only [Option.bind, decodeTail]

theorem Relay_decode_shutdown_witness :
    ∃ evs e1 e2,
      (⟨[Event.construct (Stream.snappyConn 1 false none 0), Event.poolGet,
          Event.read (Stream.snappyConn 1 false none 0) [4, 5] none,
          Event.write (Stream.conn 0) [4, 5] 2 none, Event.poolPut, Event.poolGet,
          Event.read (Stream.snappyConn 1 false none 0) [] (some Error.EOF),
          Event.poolPut], 0⟩ : World).trace
        = (⟨[], 0⟩ : World).trace
          ++ Event.construct (transformOf COMPRESS_SNAPY_DECODE 1 false none
              (⟨[], 0⟩ : World).trace.length) :: evs
      ∧ (∀ e ∈ evs, isCopyEvent (Stream.conn 0)
          (transformOf COMPRESS_SNAPY_DECODE 1 false none (⟨[], 0⟩ : World).trace.length) e
            = true)
      ∧ run (payloadEnv 1 [4, 5]) (Relay 3 0 1 COMPRESS_SNAPY_DECODE false true none) ⟨[], 0⟩
          = some ((2, none), ⟨(⟨[Event.construct (Stream.snappyConn 1 false none 0),
              Event.poolGet, Event.read (Stream.snappyConn 1 false none 0) [4, 5] none,
              Event.write (Stream.conn 0) [4, 5] 2 none, Event.poolPut, Event.poolGet,
              Event.read (Stream.snappyConn 1 false none 0) [] (some Error.EOF),
              Event.poolPut], 0⟩ : World).trace ++
              (if true = true then [Event.close 0 e1]
                else [Event.close 0 e1, Event.close 1 e2]),
              (⟨[Event.construct (Stream.snappyConn 1 false none 0), Event.poolGet,
                Event.read (Stream.snappyConn 1 false none 0) [4, 5] none,
                Event.write (Stream.conn 0) [4, 5] 2 none, Event.poolPut, Event.poolGet,
                Event.read (Stream.snappyConn 1 false none 0) [] (some Error.EOF),
                Event.poolPut], 0⟩ : World).outstanding⟩) :=
  Relay_decode_shutdown (payloadEnv 1 [4, 5]) 3 0 1 COMPRESS_SNAPY_DECODE false true none
    ⟨[], 0⟩ 2 none
    ⟨[Event.construct (Stream.snappyConn 1 false none 0), Event.poolGet,
      Event.read (Stream.snappyConn 1 false none 0) [4, 5] none,
      Event.write (Stream.conn 0) [4, 5] 2 none, Event.poolPut, Event.poolGet,
      Event.read (Stream.snappyConn 1 false none 0) [] (some Error.EOF),
      Event.poolPut], 0⟩
    (by decide) (by decide)

/-! ## `GetCompressType` -/

/-- C6. `GetCompressType` is a function of its argument alone and returns the
pair in (decode, encode) order: `""` yields
`(COMPRESS_NONE_DECODE, COMPRESS_NONE_ENCODE)`, `"snappy"` yields
`(COMPRESS_SNAPY_DECODE, COMPRESS_SNAPY_ENCODE)`; it returns a pair for these
two strings only, and every other string ends in `log.Fatalln`. -/
theorem GetCompressType_modes :
    GetCompressType "" = Outcome.returns (COMPRESS_NONE_DECODE, COMPRESS_NONE_ENCODE)
      ∧ GetCompressType "snappy"
          = Outcome.returns (COMPRESS_SNAPY_DECODE, COMPRESS_SNAPY_ENCODE)
      ∧ (∀ s : String, (∃ p, GetCompressType s = Outcome.returns p) ↔ (s = "" ∨ s = "snappy"))
      ∧ (∀ s : String, (∃ msg, GetCompressType s = Outcome.fatal msg) ↔ ¬ (s = "" ∨ s = "snappy")) := by
  refine ⟨by decide, by decide, ?_, ?_⟩
  · intro s
    unfold GetCompressType
    by_cases h1 : s = ""
    · simp [h1]
    · by_cases h2 : s = "snappy"
      · simp [h2]
      · simp [h1, h2]
  · intro s
    unfold GetCompressType
    by_cases h1 : s = ""
    · simp [h1]
    · by_cases h2 : s = "snappy"
      · simp [h2]
      · simp [h1, h2]

/-! ## `Relay`: result -/

/-- C7. For each of the four modes, `Relay` returns exactly the `(written, err)`
of its one call of `copyBuffer`, and returns if and only if that call returns:
whatever the close calls and the sentinel write answer, they change neither the
count nor the error. -/
theorem Relay_returns_copy_result (env : Env) (fuel : Nat) (in_ out : Conn)
    (crypt mux : Bool) (rate : RatePtr) (w : World) :
    (run env (Relay fuel in_ out COMPRESS_SNAPY_ENCODE crypt mux rate) w).map (fun r => r.1)
        = (run env (copyBuffer fuel (Stream.snappyConn in_ crypt rate w.trace.length)
            (Stream.conn out))
            (w.log (Event.construct (Stream.snappyConn in_ crypt rate w.trace.length)))).map
            (fun r => r.1)
    ∧ (run env (Relay fuel in_ out COMPRESS_SNAPY_DECODE crypt mux rate) w).map (fun r => r.1)
        = (run env (copyBuffer fuel (Stream.conn in_)
            (Stream.snappyConn out crypt rate w.trace.length))
            (w.log (Event.construct (Stream.snappyConn out crypt rate w.trace.length)))).map
            (fun r => r.1)
    ∧ (run env (Relay fuel in_ out COMPRESS_NONE_ENCODE crypt mux rate) w).map (fun r => r.1)
        = (run env (copyBuffer fuel (Stream.cryptConn in_ crypt rate w.trace.length)
            (Stream.conn out))
            (w.log (Event.construct (Stream.cryptConn in_ crypt rate w.trace.length)))).map
            (fun r => r.1)
    ∧ (run env (Relay fuel in_ out COMPRESS_NONE_DECODE crypt mux rate) w).map (fun r => r.1)
        = (run env (copyBuffer fuel (Stream.conn in_)
            (Stream.cryptConn out crypt rate w.trace.length))
            (w.log (Event.construct (Stream.cryptConn out crypt rate w.trace.length)))).map
            (fun r => r.1) := by
  refine ⟨?_, ?_, ?_, ?_⟩
  · rw [run_Relay_snappy_encode]
    cases run env (copyBuffer fuel (Stream.snappyConn in_ crypt rate w.trace.length)
      (Stream.conn out))
      (w.log (Event.construct (Stream.snappyConn in_ crypt rate w.trace.length))) <;> rfl
  · rw [run_Relay_snappy_decode]
    cases run env (copyBuffer fuel (Stream.conn in_)
      (Stream.snappyConn out crypt rate w.trace.length))
      (w.log (Event.construct (Stream.snappyConn out crypt rate w.trace.length))) <;> rfl
  · rw [run_Relay_none_encode]
    cases run env (copyBuffer fuel (Stream.cryptConn in_ crypt rate w.trace.length)
      (Stream.conn out))
      (w.log (Event.construct (Stream.cryptConn in_ crypt rate w.trace.length))) <;> rfl
  · rw [run_Relay_none_decode]
    cases run env (copyBuffer fuel (Stream.conn in_)
      (Stream.cryptConn out crypt rate w.trace.length))
      (w.log (Event.construct (Stream.cryptConn out crypt rate w.trace.length))) <;> rfl

/-! ## `copyBuffer`: the buffer pool -/

/-- C8. Pool conservation.  In every run of `copyBuffer` that returns, whether
with success, a read error, a write error or a short write, the operations
performed are a sequence of iterations, each of them `Get`, the read, `Put`
(when no byte was read) or `Get`, the read, the write of the bytes read, `Put`:
one buffer is checked out and one returned per iteration, the `Put` coming
right after the write.  So the run performs as many `Put` as `Get`, one per
read, and the number of buffers checked out is the same after the run as
before it. -/
theorem copyBuffer_pool_conservation (env : Env) (fuel : Nat) (dst src : Stream) (w : World)
    (r : Int × Option Error) (w1 : World)
    (h : run env (copyBuffer fuel dst src) w = some (r, w1)) :
    w1.outstanding = w.outstanding
      ∧ ∃ blocks : List (List Event), w1.trace = w.trace ++ blocks.flatten
          ∧ (∀ b ∈ blocks, isIterBlock dst src b = true)
          ∧ blocks.flatten.count Event.poolGet = blocks.length
          ∧ blocks.flatten.count Event.poolPut = blocks.length
          ∧ readCount src blocks.flatten = blocks.length := by
  obtain ⟨bs, h1, h2, h3⟩ := copyLoop_blocks env dst src fuel 0 w r w1 h
  obtain ⟨c1, c2, c3⟩ := blocks_counts dst src bs h2
  exact ⟨h3, bs, h1, h2, c1, c2, c3⟩

theorem copyBuffer_pool_conservation_witness :
    (⟨[Event.poolGet, Event.read (Stream.conn 0) [7, 8] none,
        Event.write (Stream.conn 1) [7, 8] 1 (some (Error.other 32)), Event.poolPut], 5⟩ : World).outstanding
      = (⟨[], 5⟩ : World).outstanding
      ∧ ∃ blocks : List (List Event),
          (⟨[Event.poolGet, Event.read (Stream.conn 0) [7, 8] none,
            Event.write (Stream.conn 1) [7, 8] 1 (some (Error.other 32)), Event.poolPut], 5⟩ : World).trace
            = (⟨[], 5⟩ : World).trace ++ blocks.flatten
          ∧ (∀ b ∈ blocks, isIterBlock (Stream.conn 1) (Stream.conn 0) b = true)
          ∧ blocks.flatten.count Event.poolGet = blocks.length
          ∧ blocks.flatten.count Event.poolPut = blocks.length
          ∧ readCount (Stream.conn 0) blocks.flatten = blocks.length :=
  copyBuffer_pool_conservation (writeAnswerEnv [7, 8] 1 (some (Error.other 32))) 4
    (Stream.conn 1) (Stream.conn 0) ⟨[], 5⟩ (1, some (Error.other 32))
    ⟨[Event.poolGet, Event.read (Stream.conn 0) [7, 8] none,
      Event.write (Stream.conn 1) [7, 8] 1 (some (Error.other 32)), Event.poolPut], 5⟩
    (by decide)

/-! ## `ReplayWaitGroup` -/

/-- C9. `ReplayWaitGroup` joins both directions and reports byte counts only.
Under every schedule of the two tasks and in every environment, if
`ReplayWaitGroup` returns `(out, in)`, then the operations performed since its
start split into those of the spawned task and those of the calling task, the
spawned task's operations are a complete run of
`Relay(conn1, conn2, compressEncode, ...)` that returned `(in, errS)`, and the
calling task's operations are a complete run of
`Relay(conn2, conn1, compressDecode, ...)` that returned `(out, errC)`: both
calls have returned, `in` and `out` are their counts, and neither `errS` nor
`errC` is part of the result. -/
theorem ReplayWaitGroup_joins (env : Env) (sched : List Bool) (fuel : Nat) (conn1 conn2 : Conn)
    (compressEncode compressDecode : Int) (crypt mux : Bool) (rate : RatePtr) (w : World)
    (out in_ : Int) (w1 : World)
    (h : ReplayWaitGroup env sched fuel conn1 conn2 compressEncode compressDecode crypt mux
      rate w = some ((out, in_), w1)) :
    ∃ (tagged : List (Bool × Event)) (errS errC : Option Error),
      w1.trace = w.trace ++ tagged.map Prod.snd
      ∧ Prog.replay (Relay fuel conn1 conn2 compressEncode crypt mux rate) (eventsOf true tagged)
          = some (Prog.ret (in_, errS))
      ∧ Prog.replay (Relay fuel conn2 conn1 compressDecode crypt mux rate)
          (eventsOf false tagged) = some (Prog.ret (out, errC)) := by
  have hinv := DuplexInv_foldl env (Relay fuel conn1 conn2 compressEncode crypt mux rate)
    (Relay fuel conn2 conn1 compressDecode crypt mux rate) w sched
    { wg := 0 + 1, in_ := 0, out := 0,
      spawned := some (Relay fuel conn1 conn2 compressEncode crypt mux rate),
      caller := some (Relay fuel conn2 conn1 compressDecode crypt mux rate),
      world := w }
    ⟨[], by simp, by simp [eventsOf, replay_nil], by simp [eventsOf, replay_nil]⟩
  unfold ReplayWaitGroup at h
  simp only [] at h
  split at h
  · rename_i hfin
    simp only [Option.some.injEq, Prod.mk.injEq] at h
    obtain ⟨⟨ho, hi⟩, hw⟩ := h
    obtain ⟨tagged, ht, hs, hc⟩ := hinv
    obtain ⟨hcn, hwg⟩ := hfin
    have hcn1 := Option.isNone_iff_eq_none.mp hcn
    rw [hcn1] at hc
    simp only [] at hc
    obtain ⟨ec, hc⟩ := hc
    revert hs
    cases hsp : (List.foldl (Duplex.step env)
      { wg := 0 + 1, in_ := 0, out := 0,
        spawned := some (Relay fuel conn1 conn2 compressEncode crypt mux rate),
        caller := some (Relay fuel conn2 conn1 compressDecode crypt mux rate),
        world := w } sched).spawned with
    | some p =>
      intro hs
      simp only [] at hs
      rw [hs.2] at hwg
      exact absurd hwg (by decide)
    | none =>
      intro hs
      simp only [] at hs
      obtain ⟨⟨es, hs1⟩, _⟩ := hs
      refine ⟨tagged, es, ec, ?_, ?_, ?_⟩
      · rw [← hw]; exact ht
      · rw [← hi]; exact hs1
      · rw [← ho]; exact hc
  · simp at h

theorem ReplayWaitGroup_joins_witness :
    ∃ (tagged : List (Bool × Event)) (errS errC : Option Error),
      (⟨[Event.construct (Stream.cryptConn 0 false none 0),
          Event.construct (Stream.cryptConn 0 false none 1),
          Event.poolGet, Event.poolGet,
          Event.read (Stream.conn 1) [4, 5] none,
          Event.read (Stream.cryptConn 0 false none 1) [] (some Error.EOF),
          Event.write (Stream.cryptConn 0 false none 0) [4, 5] 2 none,
          Event.poolPut, Event.poolPut,
          Event.close 1 none,
          Event.poolGet,
          Event.close 0 none,
          Event.read (Stream.conn 1) [] (some Error.EOF),
          Event.poolPut,
          Event.close 1 none,
          Event.construct (Stream.cryptConn 0 false none 15),
          Event.write (Stream.cryptConn 0 false none 15) (bytesOf "PROXYEOF") 8 none], 0⟩ :
          World).trace = (⟨[], 0⟩ : World).trace ++ tagged.map Prod.snd
      ∧ Prog.replay (Relay 3 0 1 COMPRESS_NONE_ENCODE false false none) (eventsOf true tagged)
          = some (Prog.ret (2, errS))
      ∧ Prog.replay (Relay 3 1 0 COMPRESS_NONE_DECODE false false none) (eventsOf false tagged)
          = some (Prog.ret (0, errC)) :=
  ReplayWaitGroup_joins (payloadEnv 1 [4, 5])
    [true, false, true, false, true, false, true, false, true, false, true, false, true, false,
      true, true, true, true, true]
    3 0 1 COMPRESS_NONE_ENCODE COMPRESS_NONE_DECODE false false none ⟨[], 0⟩ 0 2
    ⟨[Event.construct (Stream.cryptConn 0 false none 0),
      Event.construct (Stream.cryptConn 0 false none 1),
      Event.poolGet, Event.poolGet,
      Event.read (Stream.conn 1) [4, 5] none,
      Event.read (Stream.cryptConn 0 false none 1) [] (some Error.EOF),
      Event.write (Stream.cryptConn 0 false none 0) [4, 5] 2 none,
      Event.poolPut, Event.poolPut,
      Event.close 1 none,
      Event.poolGet,
      Event.close 0 none,
      Event.read (Stream.conn 1) [] (some Error.EOF),
      Event.poolPut,
      Event.close 1 none,
      Event.construct (Stream.cryptConn 0 false none 15),
      Event.write (Stream.cryptConn 0 false none 15) (bytesOf "PROXYEOF") 8 none], 0⟩
    (by decide)

/-! ## `Relay`: a mode that is none of the four -/

/-- C10. For a `compressType` that is none of the four modes, `Relay` performs
no operation at all (no read, write, close or sentinel write: the trace and
the pool are unchanged) and returns `(0, nil)`. -/
theorem Relay_invalid_mode (env : Env) (fuel : Nat) (in_ out : Conn) (compressType : Int)
    (crypt mux : Bool) (rate : RatePtr) (w : World)
    (h0 : compressType ≠ COMPRESS_NONE_ENCODE) (h1 : compressType ≠ COMPRESS_NONE_DECODE)
    (h2 : compressType ≠ COMPRESS_SNAPY_ENCODE) (h3 : compressType ≠ COMPRESS_SNAPY_DECODE) :
    Relay fuel in_ out compressType crypt mux rate = Prog.ret (0, none)
      ∧ run env (Relay fuel in_ out compressType crypt mux rate) w = some ((0, none), w) := by
  have e : Relay fuel in_ out compressType crypt mux rate = Prog.ret (0, none) := by
    unfold Relay
    rw [if_neg h2, if_neg h3, if_neg h0, if_neg h1]
    rfl
  exact ⟨e, by rw [e]; rfl⟩

theorem Relay_invalid_mode_witness :
    Relay 9 0 1 4 true false none = Prog.ret (0, none)
      ∧ run (scriptEnv [([1], none)]) (Relay 9 0 1 4 true false none) ⟨[], 0⟩
          = some ((0, none), ⟨[], 0⟩) :=
  Relay_invalid_mode (scriptEnv [([1], none)]) 9 0 1 4 true false none ⟨[], 0⟩
    (by decide) (by decide) (by decide) (by decide)

end EasyProxy
